import Mathlib

/-!
Shallow embedding of the sampling engine and trace store of the spvcm
repository: src/hlm/abstracts.py (Sampler_Mixin, Trace) and
src/hlm/lacombe_mcintyre/sdem/model.py (HSDEM construction-time validation).
Python dictionaries are modelled as association lists, float values as
integers (the claims under study concern bookkeeping, schemas, shapes and
control flow, not floating-point arithmetic), and fallible Python code
returns Except.
-/

namespace Spvcm

/-- Python exceptions surfaced by the embedded fragments. -/
inductive PyErr
  | typeError (msg : String)
  | attributeError (msg : String)
  | keyError (msg : String)
  | assertionError (msg : String)
  | userWarning (msg : String)
  deriving DecidableEq, Repr

/-- Lookup in an association list: the Python dict read d[k], none when the
    key is absent (where the source would raise KeyError). -/
def alookup {α β : Type} [DecidableEq α] : List (α × β) → α → Option β
  | [], _ => none
  | kv :: rest, p => if kv.1 = p then some kv.2 else alookup rest p

/-- Key list of an association list, dict keys in insertion order. -/
def akeys {α β : Type} (c : List (α × β)) : List α := c.map Prod.fst

/-- Error-propagating map over a list: the Python loop that applies f to each
    element in order, where the first raised exception aborts the whole
    loop. -/
def mapExc {ε α β : Type} (f : α → Except ε β) : List α → Except ε (List β)
  | [] => Except.ok []
  | a :: rest =>
    match f a with
    | Except.error e => Except.error e
    | Except.ok b =>
      match mapExc f rest with
      | Except.error e => Except.error e
      | Except.ok bs => Except.ok (b :: bs)

/-- One trace chain: a dict from parameter name to the ordered list of
    recorded draws. -/
abbrev Chain := List (String × List Int)

/-- The statement chains[0][param].append(v): the sequence stored under p
    grows by v; any other key is untouched.  A key absent from the dict would
    be a KeyError in the source; here the append is simply dropped, and every
    theorem about appends carries the key-membership hypothesis. -/
def appendTo (c : Chain) (p : String) (v : Int) : Chain :=
  c.map (fun kv => if kv.1 = p then (kv.1, kv.2 ++ [v]) else kv)

/-- The append loop of Sampler_Mixin.draw: for param in self.traced_params,
    self.trace.chains[0][param].append(self.state[param]). -/
def appendAll (tp : List String) (s : String → Int) (c : Chain) : Chain :=
  tp.foldl (fun acc p => appendTo acc p (s p)) c

/-- A freshly constructed chain: one empty sequence per name, as built at
    model construction and by Trace(**(name to empty list)). -/
def freshChain (ks : List String) : Chain := ks.map (fun k => (k, []))

/-- Model orchestrator for the single-chain loop: the cycle counter, the
    state namespace seen through its traced values, the traced parameter
    list, the trace chain list and the optional persistence sink name. -/
structure Orch where
  cycles : Nat
  state : String → Int
  tracedParams : List String
  chains : List Chain
  database : Option String

/-- Core of Sampler_Mixin.draw: finalize invariants exactly when cycles == 0
    (the finalizer runs on the pre-iteration state), run the model-specific
    iteration, advance the counter by one, and append the new value of every
    traced parameter to chain 0.  A constructed orchestrator always owns at
    least one chain; on an empty chain list the source would raise IndexError,
    and the theorems below carry the nonemptiness hypothesis instead. -/
def drawCore (fin it : (String → Int) → String → Int) (m : Orch) : Orch :=
  let s := if m.cycles = 0 then it (fin m.state) else it m.state
  { m with
    state := s
    cycles := m.cycles + 1
    chains :=
      match m.chains with
      | [] => []
      | c :: rest => appendAll m.tracedParams s c :: rest }

/-- Names resolvable by getattr on a Trace instance: the instance attributes
    set in Trace.__init__ and the class-level methods and properties.  Trace
    defines no dynamic attribute fallback, so getattr on any other name
    raises AttributeError. -/
def traceAttrNames : List String :=
  ["chains", "_varnames", "varnames", "drop", "_validate_schema", "n_chains",
   "_allclose", "_assert_allclose", "to_df", "to_csv", "from_df", "from_pymc3",
   "from_csv", "plot"]

/-- The compaction loop of draw under a configured sink: for each traced
    param the source runs trace[param] = [getattr(trace, param)[-1]].  The
    right-hand side is evaluated first and getattr raises AttributeError for
    a parameter name, which is not a Trace attribute; were the name an
    attribute, the item assignment would still raise TypeError because Trace
    defines no item-assignment method.  The loop therefore fails on its first
    iteration; only an empty traced_params list completes it. -/
def compactLoop : List String → Except PyErr Unit
  | [] => Except.ok ()
  | p :: _ =>
    if traceAttrNames.contains p then
      Except.error (PyErr.typeError "Trace object does not support item assignment")
    else
      Except.error (PyErr.attributeError ("Trace object has no attribute " ++ p))

/-- Sampler_Mixin.draw: the core update always runs; with a configured sink
    the head record is then flushed (head_to_sql, an external collaborator
    modelled as succeeding) and the compaction loop follows. -/
def draw (fin it : (String → Int) → String → Int) (m : Orch) : Except PyErr Orch :=
  let m2 := drawCore fin it m
  match m.database with
  | none => Except.ok m2
  | some _ =>
    match compactLoop m.tracedParams with
    | Except.ok _ => Except.ok m2
    | Except.error e => Except.error e

/-- n successive applications of the draw core, the body of the sample loop
    on the sink-free path. -/
def drawIter (fin it : (String → Int) → String → Int) : Nat → Orch → Orch
  | 0, m => m
  | Nat.succ n, m => drawIter fin it n (drawCore fin it m)

/-- n successive calls of draw with the error path kept: the sample(n) loop
    calls draw n times, and a raised exception (the sink compaction crash)
    propagates out of the loop. -/
def drawExcIter (fin it : (String → Int) → String → Int) : Nat → Orch → Except PyErr Orch
  | 0, m => Except.ok m
  | Nat.succ n, m =>
    match draw fin it m with
    | Except.error e => Except.error e
    | Except.ok m2 => drawExcIter fin it n m2

/-- Single-chain sample(n) with an external interrupt arriving after j
    completed draws (none: no interrupt; an interrupt index past the loop is
    never observed).  The handler catches the interrupt, calls warnings.warn
    with the CURRENT cycle count interpolated into the message, and returns
    normally; the second component is the count the warning reports.
    Wall-clock accounting (total_sample_time) is not modelled. -/
def sampleLoop (fin it : (String → Int) → String → Int)
    (m : Orch) (n : Nat) (intr : Option Nat) : Orch × Option Nat :=
  match intr with
  | none => (drawIter fin it n m, none)
  | some j =>
    if j < n then
      let mj := drawIter fin it j m
      (mj, some mj.cycles)
    else
      (drawIter fin it n m, none)

/-- State attribute of the orchestrator: a single namespace before any
    parallel run, a list of per-chain namespaces afterwards.  A state
    namespace is modelled through its traced-value view, name to value. -/
inductive OState
  | one (s : String → Int)
  | many (ss : List (String → Int))

/-- Orchestrator view used by _parallel_sample. -/
structure MOrch where
  cycles : Nat
  ostate : OState
  tracedParams : List String
  chains : List Chain
  database : Option String

/-- Receiver of one invocation of the fuzz-starting-values hook inside the
    setup loop of _parallel_sample. -/
inductive FuzzTarget
  | originalModel
  | copyModel (i : Nat)
  deriving DecidableEq, Repr

/-- Initial state handed to copy i: entry i of a list-valued state (left by a
    prior parallel run), else the single shared state. -/
def initState (m : MOrch) (i : Nat) : String → Int :=
  match m.ostate with
  | OState.one s => s
  | OState.many ss => ss.getD i (fun _ => 0)

/-- Copy i after the setup loop of _parallel_sample: same cycles and traced
    parameters as the parent, per-copy state, a fresh one-chain trace with one
    empty sequence per varname of the parent trace (the keys of its chain 0),
    and an index-suffixed sink name when one is configured. -/
def workerStart (m : MOrch) (i : Nat) : Orch :=
  { cycles := m.cycles
    state := initState m i
    tracedParams := m.tracedParams
    chains := [freshChain (akeys (m.chains.headD []))]
    database := m.database.map (fun d => d ++ toString i) }

/-- Normal-path trajectory of worker i of the pool: seeds its generator (the
    seed selects the iteration map) and runs sample(k) serially, k calls of
    draw.  Each draw that returns returns exactly the draw core's result, so
    this is the worker's trajectory whenever none of its draws raises;
    workerRunExc below keeps the error path of the sink branch. -/
def workerRun (fin : (String → Int) → String → Int)
    (steps : Nat → (String → Int) → String → Int)
    (seeds : List Nat) (m : MOrch) (k i : Nat) : Orch :=
  drawIter fin (steps (seeds.getD i 0)) k (workerStart m i)

/-- Worker i of the pool with the error path kept: sample(k) through draw,
    including the sink flush-and-compaction branch that raises on every
    sink-configured draw with traced parameters. -/
def workerRunExc (fin : (String → Int) → String → Int)
    (steps : Nat → (String → Int) → String → Int)
    (seeds : List Nat) (m : MOrch) (k i : Nat) : Except PyErr Orch :=
  drawExcIter fin (steps (seeds.getD i 0)) k (workerStart m i)

/-- Result of _parallel_sample: the recombined orchestrator and the record of
    which model object each fuzz-hook invocation received. -/
structure PRes where
  orch : MOrch
  fuzzTargets : List FuzzTarget

/-- Setup and recombination of Sampler_Mixin._parallel_sample, the path
    reached when every worker returns (each returned draw equals the draw
    core, so the worker results are the workerRun trajectories;
    parallelSampleFull below keeps the abort path of a worker exception).
    The setup loop applies the fuzz hook, when cycles == 0, as
    self._fuzz_starting_values(self): once per copy index but always to the
    ORIGINAL model, after the deep copies were already taken; fuzzTargets
    records the receivers, which are fixed before the pool is dispatched.
    Recombination concatenates each worker chain onto the corresponding
    existing chain on a continuation (cycles > 0) and adopts the worker
    chains as the chain list on a first run; the state becomes the list of
    final worker states and cycles advances by n_samples. -/
def parallelSample (fin : (String → Int) → String → Int)
    (steps : Nat → (String → Int) → String → Int)
    (seeds : List Nat) (m : MOrch) (nsamples njobs : Nat) : PRes :=
  let fuzzTargets :=
    if m.cycles = 0 then List.replicate njobs FuzzTarget.originalModel else []
  let res : Nat → Orch := fun i => workerRun fin steps seeds m nsamples i
  let newChains :=
    if 0 < m.cycles then
      (List.range njobs).map (fun i =>
        (m.chains.getD i []).map (fun kv =>
          (kv.1, kv.2 ++ ((alookup ((res i).chains.headD []) kv.1).getD []))))
    else
      (List.range njobs).map (fun i => (res i).chains.headD [])
  { orch :=
      { cycles := m.cycles + nsamples
        ostate := OState.many ((List.range njobs).map (fun i => (res i).state))
        tracedParams := m.tracedParams
        chains := newChains
        database := m.database }
    fuzzTargets := fuzzTargets }

/-- Sampler_Mixin._parallel_sample with the worker error path kept: the pool
    runs each copy through sample(n) including the sink branch of draw; an
    exception inside any worker propagates out of Pool.map and aborts the
    whole batch before any recombination.  When every worker returns, each
    returned orchestrator equals its workerRun trajectory (a returning draw
    returns the draw core's result), so the run produces exactly the
    parallelSample recombination. -/
def parallelSampleFull (fin : (String → Int) → String → Int)
    (steps : Nat → (String → Int) → String → Int)
    (seeds : List Nat) (m : MOrch) (nsamples njobs : Nat) : Except PyErr PRes :=
  match mapExc (fun i => workerRunExc fin steps seeds m nsamples i) (List.range njobs) with
  | Except.error e => Except.error e
  | Except.ok _ => Except.ok (parallelSample fin steps seeds m nsamples njobs)

/-- Boolean set equality of two name lists, the Python comparison of
    set(xs) and set(ys). -/
def setEqB (xs ys : List String) : Bool :=
  (xs.all (fun x => ys.contains x)) && (ys.all (fun y => xs.contains y))

/-- Trace._validate_schema.  The source computes same_schema, asserts all of
    it, and in the failure handler computes bad_chains (note: the filter
    keeps the indices i with same_schema[i] true, the chains whose schema
    MATCHES chain 0) and then merely CONSTRUCTS KeyError(...) without raising
    it, so the method returns normally on both paths.  The constructed,
    never-raised exception is kept as a local value to mirror the source. -/
def validate_schema (chains : List Chain) : Option PyErr :=
  let tracked := chains.map (fun c => akeys c)
  let sameSchema := tracked.map (fun ks => setEqB ks (tracked.headD []))
  if sameSchema.all (fun b => b) then none
  else
    let badChains := (List.range chains.length).filter (fun i => sameSchema.getD i false)
    let _unraised := PyErr.keyError
      ("The parameters tracked in each chain are not the same! Chains " ++
        toString badChains ++ " do not have the same parameters as chain 1!")
    none

/-- Trace: an ordered collection of chains. -/
structure PyTrace where
  chains : List Chain
  deriving DecidableEq, Repr

/-- Trace.__init__ from explicit chains: stores them and calls
    _validate_schema, which (see above) never raises. -/
def PyTrace.make (chains : List Chain) : Except PyErr PyTrace :=
  match validate_schema chains with
  | some e => Except.error e
  | none => Except.ok ⟨chains⟩

/-- Trace.varnames: revalidates (a no-op) and returns the keys of chain 0. -/
def varnamesOf (t : PyTrace) : List String := akeys (t.chains.headD [])

/-- Python dict equality for chains: equal key sets with equal values. -/
def dictEqB (c d : Chain) : Bool :=
  (c.all (fun kv => alookup d kv.1 == some kv.2)) &&
  (d.all (fun kv => alookup c kv.1 == some kv.2))

/-- Trace.__eq__ on two traces: zips the two chain lists, truncating to the
    shorter, and requires pairwise dict equality of the zipped chains; the
    chain counts themselves are never compared.  (The isinstance guard
    rejecting non-Trace arguments is outside this model.) -/
def traceEq (t other : PyTrace) : Bool :=
  ((other.chains.zip t.chains).map (fun pr => dictEqB pr.1 pr.2)).all (fun b => b)

/-- First parameter of ch1 whose sequence is not close to the one ch2 stores
    under the same name (np.testing.assert_allclose per parameter; over the
    integer value model closeness is equality).  A name missing from ch2 is a
    failure at that name. -/
def firstMismatch : Chain → Chain → Option String
  | [], _ => none
  | kv :: rest, c2 =>
    match alookup c2 kv.1 with
    | none => some kv.1
    | some w => if w = kv.2 then firstMismatch rest c2 else some kv.1

/-- Body of Trace._assert_allclose as written: variable-name-set equality
    first (raising AssertionError naming both sets on failure), then per
    zipped chain pair the per-parameter closeness check, raising
    AssertionError naming the first failing parameter. -/
def assertAllcloseBody (t other : PyTrace) : Except PyErr Unit :=
  if setEqB (varnamesOf t) (varnamesOf other) then
    match (t.chains.zip other.chains).filterMap (fun pr => firstMismatch pr.1 pr.2) with
    | [] => Except.ok ()
    | k :: _ => Except.error (PyErr.assertionError ("Failed on " ++ k))
  else
    Except.error (PyErr.assertionError "Variable names are different!")

/-- Python call protocol for the bound call inside _allclose: the positional
    arguments supplied after the receiver must fill exactly the one
    positional slot of _assert_allclose (named other); any other count is a
    TypeError raised before the body runs. -/
def assertAllcloseCall (receiver : PyTrace) (posArgs : List PyTrace) : Except PyErr Unit :=
  match posArgs with
  | [other] => assertAllcloseBody receiver other
  | args => Except.error (PyErr.typeError
      ("_assert_allclose takes 2 positional arguments but " ++
        toString (1 + args.length) ++ " were given"))

/-- Trace._allclose: the source invokes self._assert_allclose(self, other),
    passing TWO positional arguments into the single positional slot; only
    AssertionError is converted to the False return. -/
def allclose (t other : PyTrace) : Except PyErr Bool :=
  match assertAllcloseCall t [t, other] with
  | Except.ok _ => Except.ok true
  | Except.error (PyErr.assertionError _) => Except.ok false
  | Except.error e => Except.error e

/-- Parameter names in the tabular round-trip model, as character lists so
    that the suffix splitting of from_df is fully computable. -/
abbrev PName := List Char

/-- Per-parameter trace data: a scalar sequence (one float per iteration) or
    a vector sequence (one k-component column vector per iteration, stored
    here by rows). -/
inductive PVal
  | scalar (vals : List Int)
  | vector (rows : List (List Int))
  deriving DecidableEq, Repr

/-- A chain of the tabular model. -/
abbrev PChain := List (PName × PVal)

/-- A DataFrame column: numeric for a scalar parameter, or object dtype with
    each cell holding a whole vector record. -/
inductive Col
  | nums (vals : List Int)
  | objs (rows : List (List Int))
  deriving DecidableEq, Repr

/-- A DataFrame: named columns in order. -/
abbrev DFrame := List (PName × Col)

/-- NumPy squeeze on a shape: drop the axes of extent 1. -/
def npSqueeze (shape : List Nat) : List Nat := shape.filter (fun d => d ≠ 1)

/-- Shape of one stored record of a parameter: a scalar has shape (), a
    k-component column vector is stored as a (k,1) array. -/
def recShape : PVal → List Nat
  | PVal.scalar _ => []
  | PVal.vector rows => [(rows.headD []).length, 1]

/-- Shape of self[name, 0] as to_df evaluates it: with a single chain,
    np.squeeze of the first record alone; with several chains, np.squeeze of
    the STACK of the first records across chains, one leading axis of extent
    n_chains in front of the record shape.  The chains of a schema-consistent
    trace store records of one kind and extent per name, so the test is
    evaluated on the parameter's record in its own chain. -/
def firstShape (nChains : Nat) (v : PVal) : List Nat :=
  if nChains ≤ 1 then npSqueeze (recShape v)
  else npSqueeze (nChains :: recShape v)

/-- Membership test of to_df for the flattening list to_split:
    len(self[name,0].shape) > 1.  A single-chain trace never selects anything
    (a record squeezes to rank at most 1); a multi-chain trace selects its
    (k,1)-vector parameters with k at least 2, whose stacked first records
    squeeze to shape (n_chains, k). -/
def toSplitTest (nChains : Nat) (v : PVal) : Bool :=
  (firstShape nChains v).length > 1

/-- Outcome of the flattening body of to_df on the stacked records of one
    selected parameter (n iterations of a record of the given shape): the
    stacked array is squeezed, n and k are read off its first two axes and
    rest is the remainder; a rest of length one makes the records.reshape
    call multiply a Python tuple by an int and fail with TypeError, and a
    longer rest raises Exception explicitly, so only an empty rest passes. -/
def flattenOutcome (n : Nat) (shape : List Nat) : Except String (Nat × Nat) :=
  match npSqueeze (n :: shape) with
  | a :: b :: rest =>
    if rest = [] then Except.ok (a, b)
    else Except.error "reshape fails on a tuple second argument"
  | _ => Except.error "not enough axes to unpack"

/-- Column encoding of one parameter that is NOT selected for flattening:
    the raw sequence for a scalar, an object-dtype column of whole records
    for a vector. -/
def encodeVal : PVal → Col
  | PVal.scalar vals => Col.nums vals
  | PVal.vector rows => Col.objs rows

/-- Decoding of one unflattened column, the values.flatten().tolist() view a
    single gathered column hands back. -/
def decodeVal : Col → PVal
  | Col.nums vals => PVal.scalar vals
  | Col.objs rows => PVal.vector rows

/-- The unflattened columns of one chain, in parameter order. -/
def encodeChain (c : PChain) : DFrame :=
  c.map (fun kv => (kv.1, encodeVal kv.2))

/-- Column-wise decoding of a frame of unflattened columns. -/
def decodeChain (df : DFrame) : PChain :=
  df.map (fun kv => (kv.1, decodeVal kv.2))

/-- Flattening body of to_df for one selected parameter of one chain: the n
    stacked records are squeezed and unpacked as (n, k) plus a rest that must
    be empty (flattenOutcome); on success, component i across the iterations
    becomes the suffixed numeric column name_i.  A one-iteration chain
    squeezes the leading axis away and the shape[0:2] unpacking fails
    (ValueError in the source), and a stack of scalar records has a single
    axis and fails the same unpacking; both are errors here, and the
    scalar success branch is unreachable. -/
def flattenParam (name : PName) (v : PVal) : Except String (List (PName × Col)) :=
  match v with
  | PVal.scalar vals =>
    (match flattenOutcome vals.length [] with
     | Except.error e => Except.error e
     | Except.ok _ => Except.ok [])
  | PVal.vector rows =>
    (match flattenOutcome rows.length [(rows.headD []).length, 1] with
     | Except.error e => Except.error e
     | Except.ok _ =>
       Except.ok ((List.range (rows.headD []).length).map (fun i =>
         (name ++ '_' :: (toString i).toList,
          Col.nums (rows.map (fun row => row.getD i 0))))))

/-- Trace.to_df on one chain of a trace with nChains chains.  to_split holds
    the parameters whose self[name,0] squeezes to rank above 1 (toSplitTest);
    the source copies the chain, replaces each selected parameter by its
    suffixed component columns (the dict update appends them at the end and
    the delete removes the original entry, so unselected columns keep their
    relative order and the flattened groups follow in to_split order), and a
    failing flatten aborts the export. -/
def to_df (nChains : Nat) (c : PChain) : Except String DFrame :=
  let keep := c.filter (fun kv => !toSplitTest nChains kv.2)
  let split := c.filter (fun kv => toSplitTest nChains kv.2)
  match mapExc (fun kv => flattenParam kv.1 kv.2) split with
  | Except.error e => Except.error e
  | Except.ok groups => Except.ok (encodeChain keep ++ groups.flatten)

/-- Python str.split on the combine suffix of from_df. -/
def splitUnderscore : List Char → List (List Char)
  | [] => [[]]
  | c :: rest =>
    let r := splitUnderscore rest
    if c = '_' then [] :: r
    else (c :: r.headD []) :: r.tail

/-- Stem computation of from_df: a name whose first split part is the whole
    name (no separator present) is its own stem; otherwise the parts before
    the last separator are rejoined with the separator. -/
def stemOf (col : PName) : PName :=
  let parts := splitUnderscore col
  if parts.headD [] = col then col
  else List.intercalate ['_'] parts.dropLast

/-- Data read off one column for a given row index (numeric columns only;
    used by the multi-column reassembly below). -/
def colNth (c : Col) (j : Nat) : Int :=
  match c with
  | Col.nums v => v.getD j 0
  | Col.objs _ => 0

/-- One stem of from_df: the columns whose name starts with the stem.  One
    numeric column yields a scalar parameter, one object column a vector
    parameter (values.flatten().tolist() hands the whole record cells back),
    and several numeric columns are reassembled row-wise into vectors.  A
    stem gathering a mix of numeric and object columns would build ragged
    object rows in pandas; that case is unreachable from to_df output and is
    surfaced as an error here. -/
def gatherStem (df : DFrame) (stem : PName) : Except String (PName × PVal) :=
  match df.filter (fun col => stem.isPrefixOf col.1) with
  | [(_, Col.nums vals)] => Except.ok (stem, PVal.scalar vals)
  | [(_, Col.objs rows)] => Except.ok (stem, PVal.vector rows)
  | cols =>
    if cols.all (fun col => match col.2 with | Col.nums _ => true | Col.objs _ => false) then
      let n := (match cols.headD ([], Col.nums []) with
                | (_, Col.nums v) => v.length
                | (_, Col.objs _) => 0)
      Except.ok (stem, PVal.vector ((List.range n).map (fun j => cols.map (fun col => colNth col.2 j))))
    else
      Except.error "mixed dtype columns under one stem"

/-- Trace.from_df on one frame: the stems of all columns are collected
    (set(unique_stems) in the source; a dict does not depend on the
    iteration order, fixed here by List.dedup) and each stem is gathered by
    prefix match over the frame. -/
def from_df (df : DFrame) : Except String PChain :=
  let stems := ((df.map Prod.fst).map stemOf).dedup
  mapExc (fun stem => gatherStem df stem) stems

/-- Trace.to_df over a whole trace: to_split is decided once from the trace
    (its chain count enters the stacked first-record shapes), then every
    chain is exported with it; the first failing chain aborts. -/
def to_dfM (cs : List PChain) : Except String (List DFrame) :=
  mapExc (fun c => to_df cs.length c) cs

/-- Trace.from_df over several frames: one chain per frame, recombined into
    a multi-chain trace. -/
def from_dfM (dfs : List DFrame) : Except String (List PChain) :=
  mapExc from_df dfs

/-- The tabular round trip Trace.from_df of Trace.to_df. -/
def roundTrip (cs : List PChain) : Except String (List PChain) :=
  match to_dfM cs with
  | Except.error e => Except.error e
  | Except.ok dfs => from_dfM dfs

/-- Dimension validation of HSDEM.__init__: xRows is the row count of the
    covariate matrix X, wN the dimension W.n of the validated weights object.
    On mismatch the assert fails and the handler raises UserWarning, an
    uncaught exception aborting construction, whose message interpolates both
    disagreeing dimensions. -/
def hsdemCheckDims (xRows wN : Nat) : Except PyErr Unit :=
  if xRows = wN then Except.ok ()
  else Except.error (PyErr.userWarning
    ("Number of lower-level observations does not match between X (" ++
      toString xRows ++ ") and W (" ++ toString wN ++ ")"))

/-- HSDEM construction up to the dimension check: a failed check propagates
    and nothing later in the constructor runs; a passing check lets the
    construction proceed to the Base_HSDEM setup. -/
def hsdemInit (xRows wN : Nat) : Except PyErr Unit :=
  match hsdemCheckDims xRows wN with
  | Except.error e => Except.error e
  | Except.ok _ => Except.ok ()

/-! Helper lemmas about association lists and the append loop. -/

theorem alookup_appendTo_self (c : Chain) (p : String) (v : Int) :
    alookup (appendTo c p v) p = (alookup c p).map (fun vs => vs ++ [v]) := by
  induction c with
  | nil => rfl
  | cons kv rest ih =>
    by_cases h : kv.1 = p
    · simp [appendTo, alookup, h]
    · simp only [appendTo, List.map_cons, if_neg h]
      simp only [appendTo] at ih
      simp [alookup, h, ih]

theorem alookup_appendTo_ne (c : Chain) (p q : String) (v : Int) (h : q ≠ p) :
    alookup (appendTo c p v) q = alookup c q := by
  induction c with
  | nil => rfl
  | cons kv rest ih =>
    simp only [appendTo, List.map_cons]
    simp only [appendTo] at ih
    by_cases h1 : kv.1 = p
    · have h2 : ¬ kv.1 = q := fun hq => h (by rw [← hq, h1])
      simp only [if_pos h1]
      simp [alookup, h2, ih]
    · simp only [if_neg h1]
      by_cases h2 : kv.1 = q <;> simp [alookup, h2, ih]

theorem akeys_appendTo (c : Chain) (p : String) (v : Int) :
    akeys (appendTo c p v) = akeys c := by
  induction c with
  | nil => rfl
  | cons kv rest ih =>
    have hfst : (if kv.1 = p then (kv.1, kv.2 ++ [v]) else kv).1 = kv.1 := by
      by_cases h1 : kv.1 = p <;> simp [h1]
    simp only [appendTo, akeys, List.map_cons] at *
    rw [hfst, ih]

theorem alookup_appendAll_not_mem (tp : List String) (s : String → Int) (c : Chain)
    (p : String) (hp : p ∉ tp) :
    alookup (appendAll tp s c) p = alookup c p := by
  induction tp generalizing c with
  | nil => rfl
  | cons q tp ih =>
    have hq : p ≠ q := fun h => hp (h ▸ List.mem_cons_self q tp)
    have htp : p ∉ tp := fun h => hp (List.mem_cons_of_mem q h)
    simp only [appendAll, List.foldl_cons] at *
    rw [ih _ htp, alookup_appendTo_ne _ _ _ _ hq]

theorem alookup_appendAll_mem (tp : List String) (s : String → Int) (c : Chain)
    (p : String) (hnd : tp.Nodup) (hp : p ∈ tp) :
    alookup (appendAll tp s c) p = (alookup c p).map (fun vs => vs ++ [s p]) := by
  induction tp generalizing c with
  | nil => cases hp
  | cons q tp ih =>
    rcases List.mem_cons.mp hp with heq | hmem
    · subst heq
      have hnot : p ∉ tp := (List.nodup_cons.mp hnd).1
      simp only [appendAll, List.foldl_cons]
      rw [show tp.foldl (fun acc r => appendTo acc r (s r)) (appendTo c p (s p))
            = appendAll tp s (appendTo c p (s p)) from rfl,
          alookup_appendAll_not_mem _ _ _ _ hnot, alookup_appendTo_self]
    · have hne : p ≠ q := fun h => (List.nodup_cons.mp hnd).1 (h ▸ hmem)
      have hnd2 : tp.Nodup := (List.nodup_cons.mp hnd).2
      simp only [appendAll, List.foldl_cons]
      rw [show tp.foldl (fun acc r => appendTo acc r (s r)) (appendTo c q (s q))
            = appendAll tp s (appendTo c q (s q)) from rfl,
          ih _ hnd2 hmem, alookup_appendTo_ne _ _ _ _ hne]

theorem akeys_appendAll (tp : List String) (s : String → Int) (c : Chain) :
    akeys (appendAll tp s c) = akeys c := by
  induction tp generalizing c with
  | nil => rfl
  | cons q tp ih =>
    simp only [appendAll, List.foldl_cons] at *
    rw [ih, akeys_appendTo]

theorem alookup_freshChain (ks : List String) (p : String) (hp : p ∈ ks) :
    alookup (freshChain ks) p = some [] := by
  induction ks with
  | nil => cases hp
  | cons k ks ih =>
    by_cases h : k = p
    · simp [freshChain, alookup, h]
    · rcases List.mem_cons.mp hp with heq | hmem
      · exact absurd heq.symm h
      · simp only [freshChain, List.map_cons] at *
        simp [alookup, h, ih hmem]

theorem akeys_freshChain (ks : List String) : akeys (freshChain ks) = ks := by
  induction ks with
  | nil => rfl
  | cons k ks ih =>
    show k :: akeys (freshChain ks) = k :: ks
    rw [ih]

theorem alookup_of_mem_akeys {α β : Type} [DecidableEq α] (c : List (α × β)) (p : α)
    (hp : p ∈ akeys c) : ∃ v, alookup c p = some v := by
  induction c with
  | nil => cases hp
  | cons kv rest ih =>
    by_cases h : kv.1 = p
    · exact ⟨kv.2, by simp [alookup, h]⟩
    · rcases List.mem_cons.mp hp with heq | hmem
      · exact absurd heq.symm h
      · obtain ⟨v, hv⟩ := ih hmem
        exact ⟨v, by simp [alookup, h, hv]⟩

theorem alookup_mapSnd (c : Chain) (f : String → List Int → List Int) (p : String) :
    alookup (c.map (fun kv => (kv.1, f kv.1 kv.2))) p = (alookup c p).map (f p) := by
  induction c with
  | nil => rfl
  | cons kv rest ih =>
    by_cases h : kv.1 = p
    · subst h
      simp [alookup]
    · simp [alookup, h, ih]

/-! Helper lemmas about the iterated draw core. -/

theorem drawCore_cycles (fin it : (String → Int) → String → Int) (m : Orch) :
    (drawCore fin it m).cycles = m.cycles + 1 := rfl

theorem drawCore_traced (fin it : (String → Int) → String → Int) (m : Orch) :
    (drawCore fin it m).tracedParams = m.tracedParams := rfl

theorem drawIter_cycles (fin it : (String → Int) → String → Int) :
    ∀ (n : Nat) (m : Orch), (drawIter fin it n m).cycles = m.cycles + n := by
  intro n
  induction n with
  | zero => intro m; rfl
  | succ n ih =>
    intro m
    show (drawIter fin it n (drawCore fin it m)).cycles = m.cycles + (n + 1)
    rw [ih, drawCore_cycles]
    omega

theorem drawIter_chains (fin it : (String → Int) → String → Int) :
    ∀ (n : Nat) (m : Orch) (c : Chain) (rest : List Chain), m.chains = c :: rest →
      ∃ c2 : Chain, (drawIter fin it n m).chains = c2 :: rest
        ∧ akeys c2 = akeys c
        ∧ (drawIter fin it n m).tracedParams = m.tracedParams
        ∧ ∀ p vs, m.tracedParams.Nodup → p ∈ m.tracedParams → alookup c p = some vs →
            ∃ l, alookup c2 p = some l ∧ l.length = vs.length + n := by
  intro n
  induction n with
  | zero =>
    intro m c rest hc
    exact ⟨c, hc, rfl, rfl, fun p vs _ _ hv => ⟨vs, hv, by omega⟩⟩
  | succ n ih =>
    intro m c rest hc
    have hstep : (drawCore fin it m).chains
        = appendAll m.tracedParams (drawCore fin it m).state c :: rest := by
      simp only [drawCore, hc]
    obtain ⟨c2, h1, h2, h3, h4⟩ := ih (drawCore fin it m) _ _ hstep
    refine ⟨c2, h1, ?_, ?_, ?_⟩
    · rw [h2, akeys_appendAll]
    · show (drawIter fin it n (drawCore fin it m)).tracedParams = m.tracedParams
      rw [h3]; rfl
    · intro p vs hnd hp hv
      have hv2 : alookup (appendAll m.tracedParams (drawCore fin it m).state c) p
          = some (vs ++ [(drawCore fin it m).state p]) := by
        rw [alookup_appendAll_mem _ _ _ _ hnd hp, hv]
        rfl
      obtain ⟨l, hl, hlen⟩ := h4 p _ hnd hp hv2
      refine ⟨l, hl, ?_⟩
      rw [hlen]
      simp
      omega

/-- C1: draw() finalizes invariants exactly on the first call (cycles == 0,
    with the finalizer running on the pre-iteration state before the
    iteration map), runs the model iteration, increments cycles by exactly
    one, and appends the new current state value once to the chain-0 sequence
    of each traced parameter, leaving the other chains untouched; from a
    fresh model, n draws leave every traced chain-0 sequence with length n. -/
theorem draw_appends_one_value
    (fin it : (String → Int) → String → Int) (m : Orch) (c : Chain)
    (rest : List Chain) (p : String) (vs : List Int)
    (hdb : m.database = none) (hnd : m.tracedParams.Nodup)
    (hc : m.chains = c :: rest) (hp : p ∈ m.tracedParams)
    (hv : alookup c p = some vs) :
    draw fin it m = Except.ok (drawCore fin it m)
    ∧ (drawCore fin it m).cycles = m.cycles + 1
    ∧ (drawCore fin it m).state
        = (if m.cycles = 0 then it (fin m.state) else it m.state)
    ∧ (∃ c2, (drawCore fin it m).chains = c2 :: rest
        ∧ alookup c2 p = some (vs ++ [(drawCore fin it m).state p]))
    ∧ (∀ n, ∃ l,
        alookup (((drawIter fin it n
            { m with cycles := 0, chains := [freshChain m.tracedParams] }).chains).headD [])
          p = some l
        ∧ l.length = n) := by
  refine ⟨?_, rfl, rfl, ?_, ?_⟩
  · simp [draw, hdb]
  · refine ⟨appendAll m.tracedParams (drawCore fin it m).state c, ?_, ?_⟩
    · simp only [drawCore, hc]
    · rw [alookup_appendAll_mem _ _ _ _ hnd hp, hv]; rfl
  · intro n
    obtain ⟨c2, h1, h2, h3, h4⟩ := drawIter_chains fin it n
      { m with cycles := 0, chains := [freshChain m.tracedParams] }
      (freshChain m.tracedParams) [] rfl
    obtain ⟨l, hl, hlen⟩ := h4 p [] hnd hp (alookup_freshChain _ _ hp)
    exact ⟨l, by rw [h1]; exact hl, by simpa using hlen⟩

/-- Witness for draw_appends_one_value at a fresh two-parameter model. -/
theorem draw_appends_one_value_witness :
    (["Betas", "Sigma2"] : List String).Nodup
    ∧ alookup ([("Betas", []), ("Sigma2", [])] : Chain) "Betas" = some []
    ∧ draw (fun s => s) (fun s q => s q + 1)
        ⟨0, fun _ => 0, ["Betas", "Sigma2"], [[("Betas", []), ("Sigma2", [])]], none⟩
      = Except.ok (drawCore (fun s => s) (fun s q => s q + 1)
        ⟨0, fun _ => 0, ["Betas", "Sigma2"], [[("Betas", []), ("Sigma2", [])]], none⟩) :=
  ⟨by decide, rfl,
   (draw_appends_one_value (fun s => s) (fun s q => s q + 1)
      ⟨0, fun _ => 0, ["Betas", "Sigma2"], [[("Betas", []), ("Sigma2", [])]], none⟩
      [("Betas", []), ("Sigma2", [])] [] "Betas" []
      rfl (by decide) rfl (by decide) rfl).1⟩

/-- C5: an external interrupt after j of n draws makes the single-chain
    sample loop stop early and return normally, with a non-fatal warning
    reporting the cycle count, which is the total number of completed draws:
    the entry count plus j, hence exactly j on a fresh model; state, trace
    and cycles reflect exactly the j draws that finished before the
    interruption. -/
theorem sample_interrupted
    (fin it : (String → Int) → String → Int) (m : Orch) (j n : Nat)
    (c : Chain) (rest : List Chain) (p : String) (vs : List Int)
    (_hdb : m.database = none) (hjn : j < n) (hnd : m.tracedParams.Nodup)
    (hc : m.chains = c :: rest) (hp : p ∈ m.tracedParams)
    (hv : alookup c p = some vs) :
    sampleLoop fin it m n (some j) = (drawIter fin it j m, some (m.cycles + j))
    ∧ (drawIter fin it j m).cycles = m.cycles + j
    ∧ (∃ c2 l, (drawIter fin it j m).chains = c2 :: rest
        ∧ alookup c2 p = some l ∧ l.length = vs.length + j)
    ∧ (m.cycles = 0 → m.cycles + j = j) := by
  have hcy := drawIter_cycles fin it j m
  refine ⟨?_, hcy, ?_, fun h0 => by rw [h0]; omega⟩
  · simp [sampleLoop, hjn, hcy]
  · obtain ⟨c2, h1, h2, h3, h4⟩ := drawIter_chains fin it j m c rest hc
    obtain ⟨l, hl, hlen⟩ := h4 p vs hnd hp hv
    exact ⟨c2, l, h1, hl, hlen⟩

/-- Witness for sample_interrupted: interrupt after 2 of 5 draws on a fresh
    model; the warning reports 0 + 2 completed draws. -/
theorem sample_interrupted_witness :
    (2 < 5)
    ∧ sampleLoop (fun s => s) (fun s q => s q + 1)
        ⟨0, fun _ => 0, ["Betas"], [[("Betas", [])]], none⟩ 5 (some 2)
      = (drawIter (fun s => s) (fun s q => s q + 1) 2
          ⟨0, fun _ => 0, ["Betas"], [[("Betas", [])]], none⟩, some (0 + 2)) :=
  ⟨by decide,
   (sample_interrupted (fun s => s) (fun s q => s q + 1)
      ⟨0, fun _ => 0, ["Betas"], [[("Betas", [])]], none⟩ 2 5
      [("Betas", [])] [] "Betas" [] rfl (by decide) (by decide) rfl (by decide) rfl).1⟩

/-- C6 evidence: with a persistence sink configured and at least one traced
    parameter, the compaction pass of draw() always fails: a traced parameter
    name is not a Trace attribute, so getattr(self.trace, param) raises
    AttributeError, and even an attribute name would hit the missing item
    assignment, a TypeError.  No draw with a configured sink returns
    normally by compacting the in-memory window. -/
theorem draw_with_sink_errors
    (fin it : (String → Int) → String → Int) (m : Orch) (d : String)
    (p : String) (rest : List String)
    (hdb : m.database = some d) (htp : m.tracedParams = p :: rest) :
    (∃ e, draw fin it m = Except.error e)
    ∧ ∀ m2, draw fin it m ≠ Except.ok m2 := by
  have hcl : ∃ e, compactLoop (p :: rest) = Except.error e := by
    by_cases hct : traceAttrNames.contains p = true
    · refine ⟨PyErr.typeError "Trace object does not support item assignment", ?_⟩
      simp only [compactLoop]
      rw [if_pos hct]
    · refine ⟨PyErr.attributeError ("Trace object has no attribute " ++ p), ?_⟩
      simp only [compactLoop]
      rw [if_neg hct]
  obtain ⟨e, he⟩ := hcl
  have hd : draw fin it m = Except.error e := by
    simp [draw, hdb, htp, he]
  exact ⟨⟨e, hd⟩, fun m2 hok => by rw [hd] at hok; cases hok⟩

/-- Witness for draw_with_sink_errors at a one-parameter model with a sink. -/
theorem draw_with_sink_errors_witness :
    ((⟨0, fun _ => 0, ["Betas"], [[("Betas", [])]], some "tracedb"⟩ : Orch).database
        = some "tracedb")
    ∧ ∃ e, draw (fun s => s) (fun s => s)
        ⟨0, fun _ => 0, ["Betas"], [[("Betas", [])]], some "tracedb"⟩ = Except.error e :=
  ⟨rfl,
   (draw_with_sink_errors (fun s => s) (fun s => s)
      ⟨0, fun _ => 0, ["Betas"], [[("Betas", [])]], some "tracedb"⟩
      "tracedb" "Betas" [] rfl rfl).1⟩

/-! Helper lemmas for the parallel recombination. -/

theorem mapExc_ok {ε α β : Type} (f : α → Except ε β) (g : α → β) :
    ∀ (l : List α), (∀ a, a ∈ l → f a = Except.ok (g a)) →
      mapExc f l = Except.ok (l.map g) := by
  intro l
  induction l with
  | nil => intro _; rfl
  | cons a l ih =>
    intro h
    have ha := h a (List.mem_cons_self a l)
    have hl := ih (fun b hb => h b (List.mem_cons_of_mem a hb))
    simp [mapExc, ha, hl]

theorem drawExcIter_ok (fin it : (String → Int) → String → Int) :
    ∀ (n : Nat) (m : Orch), m.database = none →
      drawExcIter fin it n m = Except.ok (drawIter fin it n m) := by
  intro n
  induction n with
  | zero => intro m _; rfl
  | succ n ih =>
    intro m hdb
    have hd : draw fin it m = Except.ok (drawCore fin it m) := by
      simp [draw, hdb]
    show (match draw fin it m with
          | Except.error e => Except.error e
          | Except.ok m2 => drawExcIter fin it n m2)
        = Except.ok (drawIter fin it (n + 1) m)
    rw [hd]
    exact ih (drawCore fin it m) hdb

theorem getD_range_map {β : Type} (f : Nat → β) (d : β) (n i : Nat) (h : i < n) :
    ((List.range n).map f).getD i d = f i := by
  rw [List.getD_eq_getElem?_getD, List.getElem?_map, List.getElem?_range h]
  rfl

theorem getD_mem {α : Type} (l : List α) (i : Nat) (d : α) (h : i < l.length) :
    l.getD i d ∈ l := by
  rw [List.getD_eq_getElem?_getD, List.getElem?_eq_getElem h]
  exact List.getElem_mem h

theorem workerRun_chain (fin : (String → Int) → String → Int)
    (steps : Nat → (String → Int) → String → Int)
    (seeds : List Nat) (m : MOrch) (k i : Nat)
    (hnd : m.tracedParams.Nodup)
    (hschema : akeys (m.chains.headD []) = m.tracedParams) :
    ∃ cw, (workerRun fin steps seeds m k i).chains = [cw]
      ∧ akeys cw = m.tracedParams
      ∧ ∀ p, p ∈ m.tracedParams → ∃ l, alookup cw p = some l ∧ l.length = k := by
  have hc : (workerStart m i).chains = freshChain m.tracedParams :: [] := by
    show [freshChain (akeys (m.chains.headD []))] = [freshChain m.tracedParams]
    rw [hschema]
  obtain ⟨c2, h1, h2, h3, h4⟩ :=
    drawIter_chains fin (steps (seeds.getD i 0)) k (workerStart m i) _ _ hc
  refine ⟨c2, h1, ?_, ?_⟩
  · rw [h2, akeys_freshChain]
  · intro p hp
    obtain ⟨l, hl, hlen⟩ := h4 p [] hnd hp (alookup_freshChain _ _ hp)
    exact ⟨l, hl, by simpa using hlen⟩

/-- C4: with no persistence sink configured (a sink-configured worker draw
    raises and would abort the whole batch, see parallelSampleFull and C6),
    every worker completes and equals its normal-path trajectory, and
    _parallel_sample advances cycles by exactly the per-worker draw count,
    replaces the state with the list of the n_jobs final worker states, and
    produces exactly n_jobs chains.  On a first run (cycles == 0) chain i is
    worker i's single chain: same parameter schema in every chain and every
    traced sequence of length k.  On a continuation (cycles > 0) each
    worker's new per-parameter sequence is concatenated onto the
    corresponding existing chain. -/
theorem parallel_sample_recombines
    (fin : (String → Int) → String → Int)
    (steps : Nat → (String → Int) → String → Int)
    (seeds : List Nat) (m : MOrch) (k njobs : Nat)
    (hdb : m.database = none)
    (hnd : m.tracedParams.Nodup)
    (hschema : akeys (m.chains.headD []) = m.tracedParams) :
    parallelSampleFull fin steps seeds m k njobs
      = Except.ok (parallelSample fin steps seeds m k njobs)
    ∧ (∀ i, workerRunExc fin steps seeds m k i
        = Except.ok (workerRun fin steps seeds m k i))
    ∧ (parallelSample fin steps seeds m k njobs).orch.cycles = m.cycles + k
    ∧ (parallelSample fin steps seeds m k njobs).orch.ostate
        = OState.many ((List.range njobs).map
            (fun i => (workerRun fin steps seeds m k i).state))
    ∧ (parallelSample fin steps seeds m k njobs).orch.chains.length = njobs
    ∧ (m.cycles = 0 →
        (parallelSample fin steps seeds m k njobs).orch.chains
          = (List.range njobs).map
              (fun i => (workerRun fin steps seeds m k i).chains.headD [])
        ∧ ∀ i, i < njobs →
            akeys ((parallelSample fin steps seeds m k njobs).orch.chains.getD i [])
              = m.tracedParams
            ∧ ∀ p, p ∈ m.tracedParams →
                ∃ l, alookup
                    ((parallelSample fin steps seeds m k njobs).orch.chains.getD i []) p
                  = some l ∧ l.length = k)
    ∧ (0 < m.cycles → njobs ≤ m.chains.length →
        (∀ ch, ch ∈ m.chains → akeys ch = m.tracedParams) →
        ∀ i, i < njobs → ∀ p, p ∈ m.tracedParams →
          ∃ old lnew,
            alookup (m.chains.getD i []) p = some old
            ∧ alookup
                ((parallelSample fin steps seeds m k njobs).orch.chains.getD i []) p
              = some (old ++ lnew)
            ∧ lnew.length = k) := by
  have hwdb : ∀ i, (workerStart m i).database = none := by
    intro i
    show m.database.map (fun d => d ++ toString i) = none
    rw [hdb]
    rfl
  have hw : ∀ i, workerRunExc fin steps seeds m k i
      = Except.ok (workerRun fin steps seeds m k i) := fun i =>
    drawExcIter_ok _ _ k _ (hwdb i)
  have hfull : parallelSampleFull fin steps seeds m k njobs
      = Except.ok (parallelSample fin steps seeds m k njobs) := by
    show (match mapExc (fun i => workerRunExc fin steps seeds m k i) (List.range njobs) with
          | Except.error e => Except.error e
          | Except.ok _ => Except.ok (parallelSample fin steps seeds m k njobs))
        = Except.ok (parallelSample fin steps seeds m k njobs)
    rw [mapExc_ok (fun i => workerRunExc fin steps seeds m k i)
        (fun i => workerRun fin steps seeds m k i) (List.range njobs) (fun i _ => hw i)]
  refine ⟨hfull, hw, rfl, rfl, ?_, ?_, ?_⟩
  · by_cases h : 0 < m.cycles <;> simp [parallelSample, h]
  · intro h0
    have hnp : ¬ 0 < m.cycles := by omega
    have hch : (parallelSample fin steps seeds m k njobs).orch.chains
        = (List.range njobs).map
            (fun i => (workerRun fin steps seeds m k i).chains.headD []) := by
      simp [parallelSample, hnp]
    refine ⟨hch, fun i hi => ?_⟩
    have hgd : (parallelSample fin steps seeds m k njobs).orch.chains.getD i []
        = (workerRun fin steps seeds m k i).chains.headD [] := by
      rw [hch, getD_range_map _ _ _ _ hi]
    obtain ⟨cw, hcw, hkeys, hlook⟩ := workerRun_chain fin steps seeds m k i hnd hschema
    have hhd : (workerRun fin steps seeds m k i).chains.headD [] = cw := by
      rw [hcw]; rfl
    rw [hgd, hhd]
    exact ⟨hkeys, hlook⟩
  · intro hpos hlen hallkeys i hi p hp
    have hch : (parallelSample fin steps seeds m k njobs).orch.chains
        = (List.range njobs).map (fun j =>
            (m.chains.getD j []).map (fun kv =>
              (kv.1, kv.2 ++ ((alookup
                ((workerRun fin steps seeds m k j).chains.headD []) kv.1).getD [])))) := by
      simp [parallelSample, hpos]
    have hgd : (parallelSample fin steps seeds m k njobs).orch.chains.getD i []
        = (m.chains.getD i []).map (fun kv =>
            (kv.1, kv.2 ++ ((alookup
              ((workerRun fin steps seeds m k i).chains.headD []) kv.1).getD []))) := by
      rw [hch, getD_range_map _ _ _ _ hi]
    have hmemi : m.chains.getD i [] ∈ m.chains := getD_mem _ _ _ (by omega)
    have hki : akeys (m.chains.getD i []) = m.tracedParams := hallkeys _ hmemi
    obtain ⟨old, hold⟩ := alookup_of_mem_akeys (m.chains.getD i []) p (by rw [hki]; exact hp)
    obtain ⟨cw, hcw, _, hlook⟩ := workerRun_chain fin steps seeds m k i hnd hschema
    obtain ⟨l, hl, hlk⟩ := hlook p hp
    have hhd : (workerRun fin steps seeds m k i).chains.headD [] = cw := by
      rw [hcw]; rfl
    refine ⟨old, l, hold, ?_, hlk⟩
    rw [hgd, alookup_mapSnd (m.chains.getD i [])
        (fun q vs => vs ++ ((alookup
          ((workerRun fin steps seeds m k i).chains.headD []) q).getD [])) p,
        hold]
    show some (old ++ (alookup
        ((workerRun fin steps seeds m k i).chains.headD []) p).getD []) = some (old ++ l)
    rw [hhd, hl]
    rfl

/-- Witness for parallel_sample_recombines: two fresh sink-free workers of
    two draws each over a one-parameter model. -/
theorem parallel_sample_recombines_witness :
    ((⟨0, OState.one (fun _ => 0), ["Betas"], [[("Betas", [])]], none⟩ : MOrch).database
        = none)
    ∧ (["Betas"] : List String).Nodup
    ∧ akeys (([[("Betas", [])]] : List Chain).headD []) = ["Betas"]
    ∧ parallelSampleFull (fun s => s) (fun _ s => s) [7, 9]
        ⟨0, OState.one (fun _ => 0), ["Betas"], [[("Betas", [])]], none⟩ 2 2
      = Except.ok (parallelSample (fun s => s) (fun _ s => s) [7, 9]
        ⟨0, OState.one (fun _ => 0), ["Betas"], [[("Betas", [])]], none⟩ 2 2) :=
  ⟨rfl, by decide, by decide,
   (parallel_sample_recombines (fun s => s) (fun _ s => s) [7, 9]
      ⟨0, OState.one (fun _ => 0), ["Betas"], [[("Betas", [])]], none⟩ 2 2
      rfl (by decide) (by decide)).1⟩

/-- C7 evidence: on a first parallel run every invocation of the fuzz hook
    receives the ORIGINAL model (the source calls
    self._fuzz_starting_values(self) inside the per-copy loop, after the deep
    copies were taken), so no deep-copied model is ever fuzzed. -/
theorem fuzz_hook_targets_original
    (fin : (String → Int) → String → Int)
    (steps : Nat → (String → Int) → String → Int)
    (seeds : List Nat) (m : MOrch) (k njobs : Nat) (h0 : m.cycles = 0) :
    (parallelSample fin steps seeds m k njobs).fuzzTargets
        = List.replicate njobs FuzzTarget.originalModel
    ∧ ∀ i : Nat,
        FuzzTarget.copyModel i ∉ (parallelSample fin steps seeds m k njobs).fuzzTargets := by
  have h1 : (parallelSample fin steps seeds m k njobs).fuzzTargets
      = List.replicate njobs FuzzTarget.originalModel := by
    simp [parallelSample, h0]
  refine ⟨h1, fun i hmem => ?_⟩
  rw [h1] at hmem
  exact FuzzTarget.noConfusion (List.eq_of_mem_replicate hmem)

/-- Witness for fuzz_hook_targets_original: a fresh model fanned out to two
    workers fuzzes the original twice and no copy. -/
theorem fuzz_hook_targets_original_witness :
    ((⟨0, OState.one (fun _ => 0), ["Betas"], [[("Betas", [])]], none⟩ : MOrch).cycles = 0)
    ∧ (parallelSample (fun s => s) (fun _ s => s) [1, 2]
        ⟨0, OState.one (fun _ => 0), ["Betas"], [[("Betas", [])]], none⟩ 3 2).fuzzTargets
      = List.replicate 2 FuzzTarget.originalModel :=
  ⟨rfl,
   (fuzz_hook_targets_original (fun s => s) (fun _ s => s) [1, 2]
      ⟨0, OState.one (fun _ => 0), ["Betas"], [[("Betas", [])]], none⟩ 3 2 rfl).1⟩

/-- C2 evidence: constructing a Trace from two chains with different
    parameter-name sets does NOT fail.  _validate_schema detects the mismatch
    but only constructs the KeyError without raising it (and its bad-chain
    list even collects the indices whose schema matches chain 0), so the
    constructor returns the trace, and data access (varnames, which caches
    the chain-0 keys, run here on the constructed trace) succeeds. -/
theorem schema_mismatch_not_raised :
    PyTrace.make [[("a", [1])], [("b", [2])]]
        = Except.ok ⟨[[("a", [1])], [("b", [2])]]⟩
    ∧ validate_schema [[("a", [1])], [("b", [2])]] = none
    ∧ varnamesOf ⟨[[("a", [1])], [("b", [2])]]⟩ = ["a"] :=
  ⟨rfl, rfl, rfl⟩

theorem zip_all_of_getD (xs ys : List Chain)
    (h : ∀ i, i < min xs.length ys.length →
        dictEqB (xs.getD i []) (ys.getD i []) = true) :
    ((xs.zip ys).map (fun pr => dictEqB pr.1 pr.2)).all (fun b => b) = true := by
  induction xs generalizing ys with
  | nil => rfl
  | cons x xs ih =>
    cases ys with
    | nil => rfl
    | cons y ys =>
      simp only [List.zip_cons_cons, List.map_cons, List.all_cons]
      have h0 := h 0 (by simp only [List.length_cons]; omega)
      have htail : ∀ i, i < min xs.length ys.length →
          dictEqB (xs.getD i []) (ys.getD i []) = true := by
        intro i hi
        have := h (i + 1) (by simp only [List.length_cons]; omega)
        simpa using this
      rw [Bool.and_eq_true]
      exact ⟨by simpa using h0, ih ys htail⟩

/-- C10: Trace.__eq__ compares chains only pairwise along the zip of the two
    chain lists, which truncates to the shorter; whenever the overlapping
    chains are pairwise dict-equal the comparison returns True, with no
    requirement that the chain counts agree. -/
theorem trace_eq_ignores_chain_count (t other : PyTrace)
    (h : ∀ i, i < min other.chains.length t.chains.length →
        dictEqB (other.chains.getD i []) (t.chains.getD i []) = true) :
    traceEq t other = true :=
  zip_all_of_getD other.chains t.chains h

/-- Witness: a one-chain trace compares equal to a two-chain trace whose
    first chain matches, although the chain counts differ. -/
theorem trace_eq_ignores_chain_count_witness :
    (∀ i, i < min (PyTrace.mk [[("a", [1])], [("b", [2])]]).chains.length
        (PyTrace.mk [[("a", [1])]]).chains.length →
      dictEqB ((PyTrace.mk [[("a", [1])], [("b", [2])]]).chains.getD i [])
        ((PyTrace.mk [[("a", [1])]]).chains.getD i []) = true)
    ∧ traceEq (PyTrace.mk [[("a", [1])]]) (PyTrace.mk [[("a", [1])], [("b", [2])]]) = true
    ∧ (PyTrace.mk [[("a", [1])], [("b", [2])]]).chains.length
        ≠ (PyTrace.mk [[("a", [1])]]).chains.length :=
  ⟨by decide,
   trace_eq_ignores_chain_count (PyTrace.mk [[("a", [1])]])
     (PyTrace.mk [[("a", [1])], [("b", [2])]]) (by decide),
   by decide⟩

/-- C8 evidence: every invocation of Trace._allclose raises TypeError before
    any comparison runs, because the bound call passes (self, other), three
    positional arguments counting the receiver, into a method declaring two;
    the except clause around it only catches AssertionError, so _allclose
    never returns True or False. -/
theorem allclose_always_raises (t other : PyTrace) :
    (∃ msg, allclose t other = Except.error (PyErr.typeError msg))
    ∧ ∀ b, allclose t other ≠ Except.ok b := by
  have heq : allclose t other = Except.error (PyErr.typeError
      ("_assert_allclose takes 2 positional arguments but "
        ++ toString (1 + [t, other].length) ++ " were given")) := rfl
  exact ⟨⟨_, heq⟩, fun b hb => by rw [heq] at hb; cases hb⟩

/-! Helper lemmas for the tabular round trip. -/

theorem toSplitTest_single (v : PVal) : toSplitTest 1 v = false := by
  cases v with
  | scalar vals => rfl
  | vector rows =>
    show decide ((npSqueeze [(rows.headD []).length, 1]).length > 1) = false
    rcases eq_or_ne (rows.headD []).length 1 with h | h
    · rw [h]
      rfl
    · have hd : decide ((rows.headD []).length = 1) = false := decide_eq_false h
      simp [npSqueeze, List.filter_cons, hd]
      split <;> simp

theorem toSplitTest_scalar (n : Nat) (vals : List Int) :
    toSplitTest n (PVal.scalar vals) = false := by
  by_cases h : n ≤ 1
  · unfold toSplitTest firstShape
    rw [if_pos h]
    rfl
  · unfold toSplitTest firstShape
    rw [if_neg h]
    have hd : decide (n = 1) = false := decide_eq_false (by omega)
    simp [npSqueeze, recShape, List.filter_cons, hd]

theorem npSqueeze_cons_ne_one (d : Nat) (rest : List Nat) (h : d ≠ 1) :
    npSqueeze (d :: rest) = d :: npSqueeze rest := by
  unfold npSqueeze
  rw [List.filter_cons]
  simp [h]

theorem npSqueeze_cons_one (rest : List Nat) :
    npSqueeze (1 :: rest) = npSqueeze rest := by
  unfold npSqueeze
  rw [List.filter_cons]
  simp

theorem toSplitTest_multi_vector (n : Nat) (rows : List (List Int))
    (hn : 2 ≤ n) (hk : 2 ≤ (rows.headD []).length) :
    toSplitTest n (PVal.vector rows) = true := by
  unfold toSplitTest firstShape
  rw [if_neg (by omega : ¬ n ≤ 1)]
  have hs : npSqueeze (n :: recShape (PVal.vector rows))
      = [n, (rows.headD []).length] := by
    show npSqueeze [n, (rows.headD []).length, 1] = [n, (rows.headD []).length]
    rw [npSqueeze_cons_ne_one n _ (by omega), npSqueeze_cons_ne_one _ _ (by omega),
      npSqueeze_cons_one]
    rfl
  rw [hs]
  rfl

theorem flattenParam_single_iteration_fails (name : PName) (rows : List (List Int))
    (h1 : rows.length = 1) :
    ∃ e, flattenParam name (PVal.vector rows) = Except.error e := by
  have hout : ∃ e2, flattenOutcome rows.length [(rows.headD []).length, 1]
      = Except.error e2 := by
    rw [h1]
    rcases eq_or_ne (rows.headD []).length 1 with hk | hk
    · exact ⟨"not enough axes to unpack", by rw [hk]; rfl⟩
    · have hs : npSqueeze [1, (rows.headD []).length, 1] = [(rows.headD []).length] := by
        rw [npSqueeze_cons_one, npSqueeze_cons_ne_one _ _ hk, npSqueeze_cons_one]
        rfl
      refine ⟨"not enough axes to unpack", ?_⟩
      unfold flattenOutcome
      rw [hs]
  obtain ⟨e2, he2⟩ := hout
  refine ⟨e2, ?_⟩
  simp only [flattenParam]
  rw [he2]

theorem flattenParam_succeeds (name : PName) (rows : List (List Int))
    (hn : 2 ≤ rows.length) (hk : 2 ≤ (rows.headD []).length) :
    flattenParam name (PVal.vector rows)
      = Except.ok ((List.range (rows.headD []).length).map (fun i =>
          (name ++ '_' :: (toString i).toList,
           Col.nums (rows.map (fun row => row.getD i 0))))) := by
  have hout : flattenOutcome rows.length [(rows.headD []).length, 1]
      = Except.ok (rows.length, (rows.headD []).length) := by
    have hs : npSqueeze [rows.length, (rows.headD []).length, 1]
        = [rows.length, (rows.headD []).length] := by
      rw [npSqueeze_cons_ne_one _ _ (by omega), npSqueeze_cons_ne_one _ _ (by omega),
        npSqueeze_cons_one]
      rfl
    unfold flattenOutcome
    rw [hs]
    rfl
  simp only [flattenParam]
  rw [hout]

theorem decodeVal_encodeVal (v : PVal) : decodeVal (encodeVal v) = v := by
  cases v <;> rfl

theorem decodeChain_encodeChain (c : PChain) : decodeChain (encodeChain c) = c := by
  induction c with
  | nil => rfl
  | cons kv rest ih =>
    show (kv.1, decodeVal (encodeVal kv.2)) :: decodeChain (encodeChain rest) = kv :: rest
    rw [decodeVal_encodeVal, ih]

theorem flatten_selected_fails (n : Nat) (shape : List Nat)
    (hn : n ≠ 1) (hrank : 2 ≤ (npSqueeze shape).length) :
    ∃ msg, flattenOutcome n shape = Except.error msg := by
  have h1 : npSqueeze (n :: shape) = n :: npSqueeze shape := by
    simp [npSqueeze, hn]
  rcases hsq : npSqueeze shape with _ | ⟨a, rest1⟩
  · rw [hsq] at hrank; simp at hrank
  rcases rest1 with _ | ⟨b, tl⟩
  · rw [hsq] at hrank; simp at hrank
  refine ⟨"reshape fails on a tuple second argument", ?_⟩
  unfold flattenOutcome
  rw [h1, hsq]
  simp

theorem isPrefixOf_self (l : List Char) : l.isPrefixOf l = true := by
  induction l with
  | nil => rfl
  | cons c cs ih => simp [List.isPrefixOf, ih]

theorem map_self {α : Type} (l : List α) (f : α → α) (h : ∀ x, x ∈ l → f x = x) :
    l.map f = l := by
  induction l with
  | nil => rfl
  | cons a l ih =>
    rw [List.map_cons, h a (List.mem_cons_self a l),
      ih (fun x hx => h x (List.mem_cons_of_mem a hx))]

theorem filter_prefix_single (c : PChain) (x : PName) (v : PVal)
    (hmem : (x, v) ∈ c) (hnd : (akeys c).Nodup)
    (hnp : ∀ kv, kv ∈ c → ∀ kw, kw ∈ c → kv.1 ≠ kw.1 → kv.1.isPrefixOf kw.1 = false) :
    (encodeChain c).filter (fun col => x.isPrefixOf col.1) = [(x, encodeVal v)] := by
  induction c with
  | nil => cases hmem
  | cons kv rest ih =>
    have hnd1 : kv.1 ∉ akeys rest ∧ (akeys rest).Nodup := by
      have h2 : (kv.1 :: akeys rest).Nodup := hnd
      exact List.nodup_cons.mp h2
    rcases List.mem_cons.mp hmem with heq | hmem2
    · subst heq
      have htail : (encodeChain rest).filter (fun col => x.isPrefixOf col.1) = [] := by
        apply List.filter_eq_nil_iff.mpr
        intro col hcol
        obtain ⟨kw, hkw, hcoleq⟩ := List.mem_map.mp hcol
        have hxk : x ≠ kw.1 := by
          intro he
          exact hnd1.1 (he ▸ List.mem_map.mpr ⟨kw, hkw, rfl⟩)
        have hfalse := hnp (x, v) hmem kw (List.mem_cons_of_mem (x, v) hkw) hxk
        simp only [← hcoleq]
        simp [hfalse]
      show ((x, encodeVal v) :: encodeChain rest).filter (fun col => x.isPrefixOf col.1)
          = [(x, encodeVal v)]
      simp [List.filter_cons, isPrefixOf_self, htail]
    · have hxk : x ∈ akeys rest := List.mem_map.mpr ⟨(x, v), hmem2, rfl⟩
      have hxne : x ≠ kv.1 := fun he => hnd1.1 (he ▸ hxk)
      have hneg : x.isPrefixOf kv.1 = false :=
        hnp (x, v) hmem kv (List.mem_cons_self kv rest) hxne
      show ((kv.1, encodeVal kv.2) :: encodeChain rest).filter (fun col => x.isPrefixOf col.1)
          = [(x, encodeVal v)]
      rw [List.filter_cons]
      simp only [hneg]
      simp only [Bool.false_eq_true, if_false]
      exact ih hmem2 hnd1.2
        (fun ka hka kb hkb => hnp ka (List.mem_cons_of_mem kv hka) kb (List.mem_cons_of_mem kv hkb))

theorem mapExc_keys (df : DFrame) : ∀ (c : PChain),
    (∀ kv, kv ∈ c → gatherStem df kv.1 = Except.ok kv) →
    mapExc (fun stem => gatherStem df stem) (akeys c) = Except.ok c := by
  intro c
  induction c with
  | nil => intro _; rfl
  | cons kv rest ih =>
    intro h
    have hkv := h kv (List.mem_cons_self kv rest)
    have hrest := ih (fun kw hkw => h kw (List.mem_cons_of_mem kv hkw))
    show mapExc (fun stem => gatherStem df stem) (kv.1 :: akeys rest) = Except.ok (kv :: rest)
    simp [mapExc, hkv, hrest]

theorem from_df_encoded (c : PChain)
    (hstem : ∀ kv, kv ∈ c → stemOf kv.1 = kv.1)
    (hnp : ∀ kv, kv ∈ c → ∀ kw, kw ∈ c → kv.1 ≠ kw.1 → kv.1.isPrefixOf kw.1 = false)
    (hnd : (akeys c).Nodup) :
    from_df (encodeChain c) = Except.ok c := by
  have hcols : (encodeChain c).map Prod.fst = akeys c := by
    show ((c.map (fun kv => (kv.1, encodeVal kv.2))).map Prod.fst) = akeys c
    rw [List.map_map]
    rfl
  have hstems : (((encodeChain c).map Prod.fst).map stemOf).dedup = akeys c := by
    rw [hcols, map_self (akeys c) stemOf ?_, List.dedup_eq_self.mpr hnd]
    intro x hx
    obtain ⟨kv, hkv, hfst⟩ := List.mem_map.mp hx
    rw [← hfst]
    exact hstem kv hkv
  have hg : ∀ kv, kv ∈ c → gatherStem (encodeChain c) kv.1 = Except.ok kv := by
    intro kv hkv
    obtain ⟨x, v⟩ := kv
    have hf := filter_prefix_single c x v hkv hnd hnp
    show gatherStem (encodeChain c) x = Except.ok (x, v)
    unfold gatherStem
    rw [hf]
    cases v with
    | scalar vals => rfl
    | vector rows => rfl
  show mapExc (fun stem => gatherStem (encodeChain c) stem)
      (((encodeChain c).map Prod.fst).map stemOf).dedup = Except.ok c
  rw [hstems]
  exact mapExc_keys (encodeChain c) c hg

/-- C3 counterexample evidence: a scalar parameter whose name contains the
    combine suffix is renamed by the round trip.  The frame column a_b stems
    to a, which then gathers the column back under the name a, so the
    resulting trace holds no parameter named a_b at all and the original
    values are not reproduced under their name. -/
theorem roundtrip_drops_underscored_name :
    roundTrip [[(['a', '_', 'b'], PVal.scalar [1, 2])]]
        = Except.ok [[([ 'a' ], PVal.scalar [1, 2])]]
    ∧ alookup [([ 'a' ], PVal.scalar [1, 2])] ['a', '_', 'b'] = none :=
  ⟨rfl, rfl⟩

/-- C3 amended: whenever no parameter of the trace passes the export-time
    flattening test (by toSplitTest_single every single-chain trace, and by
    toSplitTest_scalar every all-scalar trace of any chain count), and the
    parameter names are their own stem (no combine-suffix underscore) and
    mutually non-prefixing, the tabular round trip from_df of to_df
    reproduces every chain exactly; the unselected parameters travel as one
    column each, vectors as whole-record object columns.  Multi-chain vector
    parameters ARE selected (toSplitTest_multi_vector) and flattened into
    suffixed component columns when they have at least two iterations
    (flattenParam_succeeds), while a one-iteration multi-chain vector trace
    makes the export itself fail (flattenParam_single_iteration_fails); that
    flattened multi-chain round trip is outside this theorem. -/
theorem roundtrip_amended (cs : List PChain)
    (hflat : ∀ c, c ∈ cs → ∀ kv, kv ∈ c → toSplitTest cs.length kv.2 = false)
    (hstem : ∀ c, c ∈ cs → ∀ kv, kv ∈ c → stemOf kv.1 = kv.1)
    (hnp : ∀ c, c ∈ cs → ∀ kv, kv ∈ c → ∀ kw, kw ∈ c →
        kv.1 ≠ kw.1 → kv.1.isPrefixOf kw.1 = false)
    (hnd : ∀ c, c ∈ cs → (akeys c).Nodup) :
    roundTrip cs = Except.ok cs := by
  have hto : ∀ c, c ∈ cs → to_df cs.length c = Except.ok (encodeChain c) := by
    intro c hc
    have hkeep : c.filter (fun kv => !toSplitTest cs.length kv.2) = c := by
      apply List.filter_eq_self.mpr
      intro kv hkv
      rw [hflat c hc kv hkv]
      rfl
    have hsplit : c.filter (fun kv => toSplitTest cs.length kv.2) = [] := by
      apply List.filter_eq_nil_iff.mpr
      intro kv hkv
      rw [hflat c hc kv hkv]
      exact Bool.false_ne_true
    simp only [to_df]
    rw [hkeep, hsplit]
    simp [mapExc]
  have h1 : to_dfM cs = Except.ok (cs.map encodeChain) := by
    show mapExc (fun c => to_df cs.length c) cs = Except.ok (cs.map encodeChain)
    exact mapExc_ok _ encodeChain cs hto
  have h2 : from_dfM (cs.map encodeChain) = Except.ok cs := by
    have h3 : mapExc from_df (cs.map encodeChain)
        = Except.ok ((cs.map encodeChain).map decodeChain) := by
      apply mapExc_ok from_df decodeChain
      intro df hdf
      obtain ⟨c, hc, hdfeq⟩ := List.mem_map.mp hdf
      subst hdfeq
      rw [decodeChain_encodeChain]
      exact from_df_encoded c (hstem c hc) (hnp c hc) (hnd c hc)
    show mapExc from_df (cs.map encodeChain) = Except.ok cs
    rw [h3, List.map_map,
      map_self cs (decodeChain ∘ encodeChain) (fun c _ => decodeChain_encodeChain c)]
  show (match to_dfM cs with
        | Except.error e => Except.error e
        | Except.ok dfs => from_dfM dfs) = Except.ok cs
  rw [h1]
  exact h2

/-- Witness for roundtrip_amended: a single-chain trace with one scalar and
    one vector parameter, underscore-free non-prefixing names, nothing
    selected for flattening, round-trips exactly. -/
theorem roundtrip_amended_witness :
    (∀ c, c ∈ [[([ 'a' ], PVal.scalar [1, 2]), ([ 'b', 'c' ], PVal.vector [[3, 4], [5, 6]])]] →
        ∀ kv, kv ∈ c → toSplitTest 1 kv.2 = false)
    ∧ roundTrip
        [[([ 'a' ], PVal.scalar [1, 2]), ([ 'b', 'c' ], PVal.vector [[3, 4], [5, 6]])]]
      = Except.ok
        [[([ 'a' ], PVal.scalar [1, 2]), ([ 'b', 'c' ], PVal.vector [[3, 4], [5, 6]])]] :=
  ⟨by decide,
   roundtrip_amended [[([ 'a' ], PVal.scalar [1, 2]), ([ 'b', 'c' ], PVal.vector [[3, 4], [5, 6]])]]
     (by decide) (by decide) (by decide) (by decide)⟩

/-- C9: when the row count of X disagrees with the dimension of the weights
    W, HSDEM construction fails at construction time with an uncaught
    UserWarning whose message interpolates both disagreeing numbers, and the
    error is never recovered: no Ok value is produced. -/
theorem hsdem_dim_mismatch (xRows wN : Nat) (h : xRows ≠ wN) :
    hsdemInit xRows wN = Except.error (PyErr.userWarning
      ("Number of lower-level observations does not match between X (" ++
        toString xRows ++ ") and W (" ++ toString wN ++ ")"))
    ∧ ∀ u, hsdemInit xRows wN ≠ Except.ok u := by
  have heq : hsdemInit xRows wN = Except.error (PyErr.userWarning
      ("Number of lower-level observations does not match between X (" ++
        toString xRows ++ ") and W (" ++ toString wN ++ ")")) := by
    simp [hsdemInit, hsdemCheckDims, h]
  exact ⟨heq, fun u hu => by rw [heq] at hu; cases hu⟩

/-- Witness for hsdem_dim_mismatch: 3 rows of X against W of dimension 5. -/
theorem hsdem_dim_mismatch_witness :
    (3 : Nat) ≠ 5
    ∧ hsdemInit 3 5 = Except.error (PyErr.userWarning
        ("Number of lower-level observations does not match between X (" ++
          toString (3 : Nat) ++ ") and W (" ++ toString (5 : Nat) ++ ")")) :=
  ⟨by decide, (hsdem_dim_mismatch 3 5 (by decide)).1⟩

end Spvcm
